import Mathlib

/-!
Verification of the Droplet bytecode VM (`src/vm` of droplet-lang/lang).

This file shallowly embeds the execution core of the Droplet VM — the value
model (`Value.cpp`), the operand stacks, the immediate readers, the arithmetic
and stack opcodes, the call/return protocol, the `.dbc` loader and the
garbage-collector root walk of `VM.cpp` — and proves or refutes the frozen
specification claims about them.

Modelling conventions, stated once here and repeated at the definitions they
concern:

* C++ vectors indexed below a stack pointer are modelled as Lean lists whose
  length is the stack pointer; vector slots at or above the stack pointer are
  never observable in the source (they are only ever overwritten) and are not
  modelled.  Where the C++ code would read such a slot, or read out of bounds,
  the model uses a default (`getD`); no theorem below evaluates those points.
* Heap objects live behind raw pointers in C++.  The model gives every
  allocated object a stable numeric identifier; a `Value` of variant Object
  carries `Option Nat` (`none` is the null pointer).
* IEEE-754 doubles are modelled as exact rationals together with an explicit
  rounding function `rnd53` (round to nearest, ties to even, 53-bit
  significand, unbounded exponent).  Rounding is applied exactly where the C++
  code performs a conversion or a double operation.  For values that are not
  integers the model keeps the exact rational (see `f64round`); no claim below
  observes the payload of a non-integer double, of an infinity or of a NaN.
* `Value.h`, `GC.cpp` and the opcode enum header are not present in the
  source tree (only their uses are).  Definitions reconstructed from the
  specification rather than from source code say so in their doc comments.
-/

namespace Droplet

/-- Tag of a runtime `Value` (enum `ValueType`; its header `Value.h` is absent
from the tree and is reconstructed from `Value.cpp` and its uses in `VM.cpp`). -/
inductive ValueType
  | NIL
  | BOOL
  | INT
  | DOUBLE
  | OBJECT
deriving DecidableEq, Repr

/-- Reduction of an integer into C++ `int` (32-bit two's complement), the
conversion applied to any wider argument passed to `Value::createINT(const int v)`. -/
def wrap32 (n : Int) : Int := (n + 2 ^ 31) % 2 ^ 32 - 2 ^ 31

/-- A runtime value (`struct Value`: a `ValueType` tag plus a payload union).
The Object payload is a possibly-null pointer, modelled as an optional heap
identifier.  The Double payload is modelled as an exact rational (see the file
comment). -/
inductive Value
  | nil
  | bool (b : Bool)
  | int (i : Int)
  | double (d : ℚ)
  | object (o : Option Nat)
deriving DecidableEq, Repr

/-- The tag of a value. -/
def Value.type : Value → ValueType
  | .nil => .NIL
  | .bool _ => .BOOL
  | .int _ => .INT
  | .double _ => .DOUBLE
  | .object _ => .OBJECT

/-- Model of `Value::createNIL`. -/
def Value.createNIL : Value := .nil

/-- Model of `Value::createBOOL`. -/
def Value.createBOOL (b : Bool) : Value := .bool b

/-- Model of `Value::createINT(const int v)`: the parameter type is C++ `int`, so an
`int64_t` argument (as passed by the arithmetic opcodes of `VM.cpp`) is
reduced mod `2^32` into `[-2^31, 2^31)` before being stored. -/
def Value.createINT (v : Int) : Value := .int (wrap32 v)

/-- Model of `Value::createDOUBLE`. -/
def Value.createDOUBLE (d : ℚ) : Value := .double d

/-- Model of `Value::createOBJECT`. -/
def Value.createOBJECT (o : Option Nat) : Value := .object o

/-- Model of `Value::isTruthy`.  The `DOUBLE` case compares against `0.0` exactly, as
the C++ does (the negative-zero double equals zero in both models). -/
def Value.isTruthy : Value → Bool
  | .nil => false
  | .bool b => b
  | .int i => i != 0
  | .double d => d != 0
  | .object o => o.isSome

/-- A heap object (`Object.h`): one of the six concrete subclasses of
`struct Object`.  The `marked` bit is collector-internal transient state and is
not part of the model (see `gcCollect`). -/
inductive HeapObj
  | str (value : String)
  | arr (value : List Value)
  | map (value : List (String × Value))
  | inst (className : String) (fields : List (String × Value))
  | funref (functionIndex : Nat)
  | boundMethod (receiver : Value) (methodIndex : Nat)
deriving DecidableEq, Repr

/-- Model of `Object::markChildren` of each subclass: every `Value` the object directly
owns (`ObjString`/`ObjFunction` own none, `ObjBoundMethod` owns its receiver). -/
def HeapObj.children : HeapObj → List Value
  | .str _ => []
  | .arr l => l
  | .map l => l.map (fun p => p.2)
  | .inst _ fs => fs.map (fun p => p.2)
  | .funref _ => []
  | .boundMethod r _ => [r]

/-- Model of `Object::get_representor` of each subclass. -/
def HeapObj.representor : HeapObj → String
  | .str s => "\"" ++ s ++ "\""
  | .arr _ => "<array>"
  | .map _ => "<map>"
  | .inst cn _ => "<object:" ++ cn ++ ">"
  | .funref i => "<function@" ++ toString i ++ ">"
  | .boundMethod _ i => "<bound-method@" ++ toString i ++ ">"

/-- The GC heap (`GC::heap`, a `vector<Object*>`): allocated objects keyed by
stable identifiers standing in for their addresses, plus the next fresh id. -/
structure Heap where
  objs : List (Nat × HeapObj)
  next : Nat
deriving DecidableEq, Repr

/-- Dereference of an object pointer: `none` when the id was swept (a dangling
pointer, whose dereference is undefined behaviour in the source). -/
def heapGet (h : Heap) (id : Nat) : Option HeapObj :=
  (h.objs.find? (fun p => p.1 == id)).map (fun p => p.2)

/-- In-place mutation of a heap object (field/element stores). -/
def heapSet (h : Heap) (id : Nat) (o : HeapObj) : Heap :=
  { h with objs := h.objs.map (fun p => if p.1 = id then (p.1, o) else p) }

/-- Model of `GC::allocNewObject` plus the `new` expression of the `VM::allocate_*`
helpers: append the object to the heap, returning its id. -/
def heapAlloc (h : Heap) (o : HeapObj) : Heap × Nat :=
  ({ objs := h.objs ++ [(h.next, o)], next := h.next + 1 }, h.next)

/-- Textual form of a rational-valued double after `std::to_string` (the "%f"
format: six fractional digits).  Half-away rounding stands in for the
platform's round-to-nearest of the binary value; no claim depends on this
rendering. -/
def dblToString (q : ℚ) : String :=
  let sgn := if q < 0 then "-" else ""
  let m := (Rat.floor (|q| * 1000000 + 1 / 2)).toNat
  let fracStr := toString (m % 1000000)
  sgn ++ toString (m / 1000000) ++ "." ++
    String.mk (List.replicate (6 - fracStr.length) '0') ++ fracStr

/-- Model of `Value::toString`.  Needs the heap to dereference an Object payload;
`none` signals the undefined behaviour of dereferencing a dangling pointer
(never evaluated by any theorem below). -/
def toStringH (h : Heap) : Value → Option String
  | .nil => some "nil"
  | .bool b => some (if b then "true" else "false")
  | .int i => some (toString i)
  | .double d => some (dblToString d)
  | .object none => some "nilobj"
  | .object (some id) => (heapGet h id).map HeapObj.representor

/-- The interpreter's operand stack `stack_internal` below `sp_internal`,
bottom first (the list length is `sp_internal`; vector slots at or above it
are never observable). -/
abbrev IStack := List Value

/-- Model of `VM::push_back`: write at `sp_internal` (appending when at the end) and
increment `sp_internal` — in the model, append. -/
def pushB (v : Value) (s : IStack) : IStack := s ++ [v]

/-- Model of `VM::pop_back`: on an empty stack return Nil and leave `sp_internal` at 0,
otherwise decrement and hand back the top slot. -/
def popB (s : IStack) : Value × IStack := (s.getLastD .nil, s.dropLast)

/-- Model of `VM::peek_back(int position)`: Nil when `sp_internal - 1 - position` is
negative.  A negative `position` would read a slot at or above `sp_internal`
(not observable, see the file comment); the default covers it. -/
def peekB (s : IStack) (position : Int) : Value :=
  let idx : Int := (s.length : Int) - 1 - position
  if idx < 0 then .nil else s.getD idx.toNat .nil

/-- Model of `n` successive `pop_back`s, first-popped first (the shape of the
return-value collection loop in `VM::do_return` and of every
pop-the-arguments error path). -/
def popN : Nat → IStack → List Value × IStack
  | 0, s => ([], s)
  | n + 1, s =>
    let (v, s1) := popB s
    let (vs, s2) := popN n s1
    (v :: vs, s2)

/-- The external-API stack of the VM (`VM::stack` with top pointer `VM::sp`).
Unlike the internal stack it must carry the vector and the pointer separately:
`VM::push` can grow the vector without moving `sp`. -/
structure PubStack where
  vec : List Value
  sp : Nat
deriving DecidableEq, Repr

/-- Model of `VM::push`: when `sp` is at or past the end of the vector, append — the
source increments `sp` only in the other branch. -/
def pushPub (v : Value) (st : PubStack) : PubStack :=
  if st.vec.length ≤ st.sp then { st with vec := st.vec ++ [v] }
  else { vec := st.vec.set st.sp v, sp := st.sp + 1 }

/-- Model of `VM::pop`: Nil on an empty stack, else decrement `sp` and hand back the
slot it covered. -/
def popPub (st : PubStack) : Value × PubStack :=
  if st.sp = 0 then (.nil, st)
  else (st.vec.getD (st.sp - 1) .nil, { st with sp := st.sp - 1 })

/-- Model of `VM::peek(int position)`: Nil when `sp - 1 - position` is negative. -/
def peekPub (st : PubStack) (position : Int) : Value :=
  let idx : Int := (st.sp : Int) - 1 - position
  if idx < 0 then .nil else st.vec.getD idx.toNat .nil

/-- A loaded function (`struct Function` of `VM.h`; the `constants` member is
left empty by the loader and is omitted). -/
structure Function where
  name : String
  code : List Nat
  argCount : Nat
  localCount : Nat
deriving DecidableEq, Repr

/-- A call frame (`struct CallFrame`).  The C++ frame holds a `Function *`
into the immutable function table; the model embeds the function value. -/
structure Frame where
  function : Function
  ip : Nat
  localStartsAt : Nat
deriving DecidableEq, Repr

/-- Model of `VM::read_u8(CallFrame &)`: one code byte, advancing `ip`. -/
def readU8F (f : Frame) : Nat × Frame :=
  (f.function.code.getD f.ip 0, { f with ip := f.ip + 1 })

/-- Model of `VM::read_u16(CallFrame &)`: the function body computes the little-endian
16-bit value and advances `ip` by 2, but the function is declared to return
`uint8_t`, so the value is reduced mod 256 on return. -/
def readU16F (f : Frame) : Nat × Frame :=
  let c := f.function.code
  let v := c.getD f.ip 0 + 2 ^ 8 * c.getD (f.ip + 1) 0
  (v % 2 ^ 8, { f with ip := f.ip + 2 })

/-- Model of `VM::read_u32(CallFrame &)`: the body computes the little-endian 32-bit
value and advances `ip` by 4, but the declared return type is `uint8_t`, so
the value is reduced mod 256 on return. -/
def readU32F (f : Frame) : Nat × Frame :=
  let c := f.function.code
  let v := c.getD f.ip 0 + 2 ^ 8 * c.getD (f.ip + 1) 0 +
    2 ^ 16 * c.getD (f.ip + 2) 0 + 2 ^ 24 * c.getD (f.ip + 3) 0
  (v % 2 ^ 8, { f with ip := f.ip + 4 })

/-! ## Loader byte readers (`VM::read_*(const vector<uint8_t> &, size_t &)`)

These are the full-width readers the loader uses; unlike the frame readers
their declared return types match the values they compute.  A read past the
end of the buffer is out of bounds in the source (no check there); the model's
default 0 covers it and no theorem evaluates such a read. -/

/-- Model of `VM::read_u8(buf, off)`. -/
def readU8L (buf : List Nat) (off : Nat) : Nat × Nat := (buf.getD off 0, off + 1)

/-- Model of `VM::read_u16(buf, off)`. -/
def readU16L (buf : List Nat) (off : Nat) : Nat × Nat :=
  (buf.getD off 0 + 2 ^ 8 * buf.getD (off + 1) 0, off + 2)

/-- Model of `VM::read_u32(buf, off)`. -/
def readU32L (buf : List Nat) (off : Nat) : Nat × Nat :=
  (buf.getD off 0 + 2 ^ 8 * buf.getD (off + 1) 0 + 2 ^ 16 * buf.getD (off + 2) 0 +
    2 ^ 24 * buf.getD (off + 3) 0, off + 4)

/-- Model of `VM::read_i32(buf, off)`: four little-endian bytes reinterpreted as a
two's-complement `int32_t` (the source `memcpy`s the bytes). -/
def readI32L (buf : List Nat) (off : Nat) : Int × Nat :=
  let u := (readU32L buf off).1
  (if u < 2 ^ 31 then (u : Int) else (u : Int) - 2 ^ 32, off + 4)

/-- Value of an IEEE-754 binary64 bit pattern (little-endian bytes are
assembled by the caller).  Infinities and NaNs have no rational value and are
modelled as 0; no claim below reads a constant with such a pattern. -/
def f64ofBits (u : Nat) : ℚ :=
  let sgn : ℚ := if u / 2 ^ 63 % 2 = 1 then -1 else 1
  let e : Nat := u / 2 ^ 52 % 2 ^ 11
  let m : Nat := u % 2 ^ 52
  if e = 2047 then 0
  else if e = 0 then sgn * (m : ℚ) / 2 ^ 1074
  else sgn * ((2 ^ 52 + m : Nat) : ℚ) * (2 : ℚ) ^ ((e : ℤ) - 1075)

/-- Model of `VM::read_double(buf, off)`: eight little-endian bytes `memcpy`d into a
double. -/
def readF64L (buf : List Nat) (off : Nat) : ℚ × Nat :=
  let u := buf.getD off 0 + 2 ^ 8 * buf.getD (off + 1) 0 + 2 ^ 16 * buf.getD (off + 2) 0 +
    2 ^ 24 * buf.getD (off + 3) 0 + 2 ^ 32 * buf.getD (off + 4) 0 +
    2 ^ 40 * buf.getD (off + 5) 0 + 2 ^ 48 * buf.getD (off + 6) 0 +
    2 ^ 56 * buf.getD (off + 7) 0
  (f64ofBits u, off + 8)

/-! ## The IEEE-754 binary64 model used by the arithmetic opcodes -/

/-- Round a natural number to the nearest 53-bit-significand binary64 value
(ties to even).  Identity at or below `2^53`; above it, the low
`log2 - 52` bits are rounded away.  The exponent is unbounded (overflow to
infinity starts near `2^1024`, far beyond any value a claim evaluates). -/
def rnd53Nat (m : Nat) : Nat :=
  if m ≤ 2 ^ 53 then m
  else
    let k := m.log2 - 52
    let q := m / 2 ^ k
    let r := m % 2 ^ k
    if r < 2 ^ (k - 1) then q * 2 ^ k
    else if 2 ^ (k - 1) < r then (q + 1) * 2 ^ k
    else if q % 2 = 0 then q * 2 ^ k else (q + 1) * 2 ^ k

/-- Round an integer to the nearest binary64 value: the meaning of
`static_cast<double>(int64_t)` in the arithmetic and comparison opcodes. -/
def rnd53 (n : Int) : Int :=
  if 0 ≤ n then (rnd53Nat n.natAbs : Int) else -(rnd53Nat n.natAbs : Int)

/-- Rounding of the exact result of a double operation back to binary64.
On integer values it is `rnd53`; a non-integer rational is kept exact — no
claim below observes the payload of a non-integer double (see the file
comment). -/
def f64round (q : ℚ) : ℚ := if q.den = 1 then ((rnd53 q.num : Int) : ℚ) else q

/-- Model of `static_cast<int64_t>(double)`: truncation toward zero.  Undefined
behaviour in C++ when the double is out of `int64_t` range or NaN; every
theorem below keeps the value in range. -/
def castF64toI64 (q : ℚ) : Int := q.num.tdiv q.den

/-- C `fmod` on binary64 (`res = fmod(da, db)` in `OP_MOD`):
`a - trunc(a / b) * b`, which IEEE-754 computes exactly.  `fmod(a, 0)` is NaN
in C; the model returns 0 there and every theorem touching `OP_MOD` excludes a
zero divisor. -/
def qfmod (a b : ℚ) : ℚ :=
  if b = 0 then 0 else a - b * (((a.num * b.den).tdiv (a.den * b.num) : Int) : ℚ)

/-! ## Arithmetic opcodes (`OP_ADD` … `OP_MOD` in `VM::run`) -/

/-- The five arithmetic opcodes. -/
inductive ArithOp
  | add
  | sub
  | mul
  | div
  | mod
deriving DecidableEq, Repr

/-- Numeric coercion of an operand (`da`/`db` in `VM::run`): a Double is
itself, an Int is converted to double, anything else is `0.0`. -/
def arithNum (v : Value) : ℚ :=
  match v with
  | .double d => d
  | .int i => ((rnd53 i : Int) : ℚ)
  | _ => 0

/-- The double result `res` computed by the opcode, with binary64 rounding
applied where the hardware rounds.  Division by zero yields an infinity or
NaN in C (modelled as 0; no claim observes a `DIV` payload). -/
def arithRaw (op : ArithOp) (da db : ℚ) : ℚ :=
  match op with
  | .add => f64round (da + db)
  | .sub => f64round (da - db)
  | .mul => f64round (da * db)
  | .div => if db = 0 then 0 else f64round (da / db)
  | .mod => qfmod da db

/-- The value pushed by an arithmetic opcode on operands `va`, `vb`: when both
operands are Int and the opcode is not `DIV`, `createINT(static_cast<int64_t>(res))`
(the `createINT` parameter narrows to 32 bits, see `Value.createINT`);
otherwise `createDOUBLE(res)`. -/
def arithResult (op : ArithOp) (va vb : Value) : Value :=
  let da := arithNum va
  let db := arithNum vb
  let res := arithRaw op da db
  if va.type ≠ .DOUBLE ∧ vb.type ≠ .DOUBLE ∧ op ≠ .div then
    Value.createINT (castF64toI64 res)
  else Value.createDOUBLE res

/-- The full stack effect of an arithmetic opcode: pop `vb`, pop `va`, push
the result. -/
def arithStep (op : ArithOp) (s : IStack) : IStack :=
  let (vb, s1) := popB s
  let (va, s2) := popB s1
  pushB (arithResult op va vb) s2

/-- The exact integer result the specification ascribes to an Int-Int
arithmetic opcode (`fmod` truncates toward zero: `a - b * (a / b)` with
truncated division). -/
def exactArith (op : ArithOp) (a b : Int) : Int :=
  match op with
  | .add => a + b
  | .sub => a - b
  | .mul => a * b
  | .div => 0
  | .mod => a - b * a.tdiv b

/-! ## Stack-shuffle opcodes (`OP_DUP`, `OP_SWAP`, `OP_ROT`) -/

/-- Model of `OP_DUP`: push `peek_back(0)`. -/
def dupStep (s : IStack) : IStack := pushB (peekB s 0) s

/-- Model of `OP_SWAP`: `a = pop; b = pop; push(a); push(b)`. -/
def swapStep (s : IStack) : IStack :=
  let (a, s1) := popB s
  let (b, s2) := popB s1
  pushB b (pushB a s2)

/-- Model of `OP_ROT`: `a = pop; b = pop; c = pop; push(b); push(a); push(c)`
(rotating a bottom-first `… c b a` into `… b a c`). -/
def rotStep (s : IStack) : IStack :=
  let (a, s1) := popB s
  let (b, s2) := popB s1
  let (c, s3) := popB s2
  pushB c (pushB a (pushB b s3))

/-! ## Comparison opcodes (`OP_EQ` … `OP_GTE`) -/

/-- The six comparison opcodes. -/
inductive CmpOp
  | eq
  | neq
  | lt
  | gt
  | lte
  | gte
deriving DecidableEq, Repr

/-- Model of `dynamic_cast<ObjString *>(v.current_value.object)` preceded by reading
the `object` union member of `v`.  `some (some s)` — the cast found a string;
`some none` — the cast yielded a null pointer (the pointer was null or the
object is of another variant); `none` — undefined behaviour (the union member
is inactive because `v` is not an Object, or the pointer dangles). -/
def dynCastStr (h : Heap) : Value → Option (Option String)
  | .object none => some none
  | .object (some id) =>
    match heapGet h id with
    | some (.str s) => some (some s)
    | some _ => some none
    | none => none
  | _ => none

/-- Numeric promotion in a comparison (`static_cast<double>` on an Int
operand; only called on INT/DOUBLE values). -/
def cmpNum (v : Value) : ℚ :=
  match v with
  | .double d => d
  | .int i => ((rnd53 i : Int) : ℚ)
  | _ => 0

/-- Result of a comparison opcode on operands `va`, `vb` (`res` in
`VM::run`), or `none` on the undefined behaviour of dereferencing a dangling
pointer.  Three branches, in source order: numeric-vs-numeric on promoted
doubles; Object-vs-Object by string contents when both cast to strings and by
pointer identity otherwise (only `EQ`/`NEQ` set `res` there — the orderings
stay `false`); otherwise equality of tag and textual form for `EQ`/`NEQ`
(again the orderings stay `false`). -/
def cmpResult (h : Heap) (c : CmpOp) (va vb : Value) : Option Bool :=
  if (va.type = .INT ∨ va.type = .DOUBLE) ∧ (vb.type = .INT ∨ vb.type = .DOUBLE) then
    let da := cmpNum va
    let db := cmpNum vb
    some (match c with
      | .eq => decide (da = db)
      | .neq => decide (da ≠ db)
      | .lt => decide (da < db)
      | .gt => decide (db < da)
      | .lte => decide (da ≤ db)
      | .gte => decide (db ≤ da))
  else if va.type = .OBJECT ∧ vb.type = .OBJECT then
    match dynCastStr h va, dynCastStr h vb with
    | some (some sa), some (some sb) =>
      some (match c with
        | .eq => decide (sa = sb)
        | .neq => decide (sa ≠ sb)
        | .lt => decide (sa < sb)
        | .gt => decide (sb < sa)
        | .lte => decide (sa < sb ∨ sa = sb)
        | .gte => decide (sb < sa ∨ sa = sb))
    | some _, some _ =>
      some (match c with
        | .eq => decide (va = vb)
        | .neq => decide (va ≠ vb)
        | _ => false)
    | _, _ => none
  else
    match toStringH h va, toStringH h vb with
    | some ta, some tb =>
      some (match c with
        | .eq => decide (va.type = vb.type ∧ ta = tb)
        | .neq => decide (¬(va.type = vb.type ∧ ta = tb))
        | _ => false)
    | _, _ => none

/-! ## VM state -/

/-- The mutable state of `struct VM` that the interpreter, the loader and the
collector touch.  `natives` keeps only the registered names: the callables are
host code outside this program and their invocations surface as `Outcome`
constructors. -/
structure VMState where
  stackI : IStack
  pub : PubStack
  frames : List Frame
  globals : List (String × Value)
  constants : List Value
  functions : List Function
  fnIndexByName : List (String × Nat)
  natives : List String
  heap : Heap
deriving DecidableEq, Repr

/-- Insert-or-overwrite into an association list (an `unordered_map`
assignment; iteration order is irrelevant to every claim). -/
def assocSet {α : Type} (l : List (String × α)) (k : String) (v : α) : List (String × α) :=
  if l.any (fun p => p.1 == k) then l.map (fun p => if p.1 = k then (k, v) else p)
  else l ++ [(k, v)]

/-- Lookup in an association list (`unordered_map::find`). -/
def assocGet {α : Type} (l : List (String × α)) (k : String) : Option α :=
  (l.find? (fun p => p.1 == k)).map (fun p => p.2)

/-- Subtraction of two `uint32_t` values (`sp_internal - argc` in `OP_CALL`
wraps mod `2^32` when `argc` exceeds `sp_internal`). -/
def u32sub (a b : Nat) : Nat := (a + (2 ^ 32 - b % 2 ^ 32)) % 2 ^ 32

/-- The `OP_CALL` state change once the callee is known to exist: a frame with
`localStartsAt = sp_internal - argc` (computed before anything is pushed), one
Nil per local slot beyond the arguments, and the frame pushed on top. -/
def opCall (st : VMState) (callee : Function) (argc : Nat) : VMState :=
  let localBase := u32sub st.stackI.length argc
  let additionalLocals := callee.localCount - argc
  { st with
    stackI := st.stackI ++ List.replicate additionalLocals Value.nil,
    frames := ⟨callee, 0, localBase⟩ :: st.frames }

/-- Model of `VM::do_return(return_count)`: collect `return_count` values by popping,
drop the top frame, reset `sp_internal` to the frame's `localStartsAt`, and
re-push the collected values in reverse collection order.  When
`localStartsAt` exceeds the current depth the C++ code would expose stale
vector slots (see the file comment); no theorem evaluates that case. -/
def doReturn (returnCount : Nat) (st : VMState) : VMState :=
  match st.frames with
  | [] => st
  | f :: rest =>
    let (rets, s1) := popN returnCount st.stackI
    { st with stackI := s1.take f.localStartsAt ++ rets.reverse, frames := rest }

/-! ## Garbage collector -/

/-- The heap identifier a root value contributes, when its variant is Object
and the pointer is not null (`GC::markValue` marks only such values; modelled
from the spec — `GC.cpp` is absent from the source tree). -/
def valueObjId : Value → Option Nat
  | .object (some id) => some id
  | _ => none

/-- Identifiers of the children of a heap object (`markChildren` handed to the
marker). -/
def childIds (h : Heap) (id : Nat) : List Nat :=
  match heapGet h id with
  | some o => o.children.filterMap valueObjId
  | none => []

/-- One fuel-indexed closure pass of the mark phase.  Modelled from the spec:
`GC.cpp` is absent from the source tree; §4.5 specifies marking the roots and
recursing through `markChildren`, marked objects not being re-traversed.
`h.objs.length` passes reach the fixpoint. -/
def gcIter (h : Heap) : Nat → List Nat → List Nat
  | 0, marked => marked
  | fuel + 1, marked => gcIter h fuel ((marked ++ marked.flatMap (childIds h)).dedup)

/-- Model of `GC::collect(rootWalker)`: mark everything reachable from the roots, then
sweep — destroy every unmarked object and retain the marked ones.  Modelled
from the spec (`GC.cpp` is absent from the source tree); the `marked` bits are
transient within a collection and are not part of the model state. -/
def gcCollect (roots : List Value) (h : Heap) : Heap :=
  let marked := gcIter h h.objs.length (roots.filterMap valueObjId)
  { h with objs := h.objs.filter (fun p => marked.contains p.1) }

/-- The roots `VM::perform_gc` hands to the collector, exactly as enumerated
in its root-walker lambda: the slots of the external-API stack `VM::stack`
below `VM::sp`, then every value in `globals`.  Neither the interpreter's
operand stack (`stack_internal` below `sp_internal`) nor the constant pool
(`global_constants`) is enumerated. -/
def vmRoots (st : VMState) : List Value :=
  st.pub.vec.take st.pub.sp ++ st.globals.map (fun p => p.2)

/-- Model of `VM::perform_gc`. -/
def performGC (st : VMState) : VMState :=
  { st with heap := gcCollect (vmRoots st) st.heap }

/-- The collection threshold (`MEM_THRESHOLD_FOR_NEXT_GC_CALL`); compared
against the heap object count. -/
def memThreshold : Nat := 1024 * 1024

/-- Model of `VM::collect_garbage_if_needed`, run before each instruction fetch. -/
def collectGarbageIfNeeded (st : VMState) : VMState :=
  if memThreshold < st.heap.objs.length then performGC st else st

/-! ## The instruction set and the interpreter loop (`VM::run`) -/

/-- The implemented opcodes: exactly the cases of the `switch` in `VM::run`,
in source order. -/
inductive Op
  | pushConst
  | pop
  | call
  | loadLocal
  | storeLocal
  | dup
  | swap
  | rot
  | add
  | sub
  | mul
  | div
  | mod
  | and
  | or
  | not
  | eq
  | neq
  | lt
  | gt
  | lte
  | gte
  | jump
  | jumpIfFalse
  | jumpIfTrue
  | ret
  | callNative
  | callFFI
  | newObject
  | isInstance
  | getField
  | setField
  | arrayGet
  | arraySet
  | mapSet
  | mapGet
  | stringConcat
  | stringLength
  | stringSubstr
  | stringEq
  | stringGetChar
  | loadGlobal
  | storeGlobal
  | newArray
  | newMap
deriving DecidableEq, Repr

/-- The numeric encoding of the opcodes.  Modelled: the `Op` enum header is
absent from the source tree and §6.2 of the specification declares the
numbering implementation-defined; the opcodes are numbered 0… in the source
order of the `switch` cases.  No claim depends on the numbering — only on
whether a byte decodes to an implemented opcode at all. -/
def opTable : List Op :=
  [.pushConst, .pop, .call, .loadLocal, .storeLocal, .dup, .swap, .rot,
   .add, .sub, .mul, .div, .mod, .and, .or, .not,
   .eq, .neq, .lt, .gt, .lte, .gte,
   .jump, .jumpIfFalse, .jumpIfTrue, .ret, .callNative, .callFFI,
   .newObject, .isInstance, .getField, .setField,
   .arrayGet, .arraySet, .mapSet, .mapGet,
   .stringConcat, .stringLength, .stringSubstr, .stringEq, .stringGetChar,
   .loadGlobal, .storeGlobal, .newArray, .newMap]

/-- Decoding of an opcode byte; `none` is a byte the `switch` sends to its
`default` case. -/
def decodeOp (b : Nat) : Option Op := opTable.get? b

/-- Result of one loop iteration.  `next` — the `switch` broke and the loop
continues; `halt` — `run()` returned (unknown opcode, or no frame is left);
`nativeCall`/`ffiCall` — control passed to host code outside this program (the
registered callable, or `dlopen`/`dlsym` and the signature dispatch);
`ub` — the iteration ran into undefined behaviour (a null or dangling pointer
dereference, or an unchecked out-of-bounds vector read). -/
inductive Outcome
  | next (st : VMState)
  | halt (st : VMState)
  | nativeCall (name : String) (argc : Nat) (st : VMState)
  | ffiCall (lib sym : String) (argc sig : Nat) (st : VMState)
  | ub (st : VMState)
deriving DecidableEq, Repr

/-- The string taken from an operand of `OP_STRING_CONCAT`/`OP_STRING_EQ`:
`(v.type == OBJECT && v.current_value.object) ? dynamic_cast<ObjString *>(…)->value
: v.toString()`.  The cast result is dereferenced without a null check, so a
non-String heap object (or a dangling pointer) is undefined behaviour
(`none`). -/
def strOperand (h : Heap) (v : Value) : Option String :=
  match v with
  | .object (some id) =>
    match heapGet h id with
    | some (.str s) => some s
    | _ => none
  | v => toStringH h v

/-- Model of `static_cast<int>` of an index operand in `OP_ARRAY_GET`/`OP_ARRAY_SET`:
an Int narrows mod `2^32`, a Double truncates toward zero (out of `int` range
that conversion is undefined behaviour in C++; the model wraps and no claim
evaluates it), anything else is 0. -/
def toCIntIndex (v : Value) : Int :=
  match v with
  | .int i => wrap32 i
  | .double d => wrap32 (castF64toI64 d)
  | _ => 0

/-- A comparison `case` block of the `switch` in `VM::run`: pop `vb`, pop
`va`, push the boolean result (undefined behaviour surfaces as `ub`). -/
def cmpExec (c : CmpOp) (f1 : Frame) (rest : List Frame) (st : VMState) : Outcome :=
  let (vb, s1) := popB st.stackI
  let (va, s2) := popB s1
  match cmpResult st.heap c va vb with
  | none => .ub { st with stackI := s2, frames := f1 :: rest }
  | some res => .next { st with stackI := pushB (.bool res) s2, frames := f1 :: rest }

/-- One `case` block of the `switch` in `VM::run`.  `f1` is the top frame
after the opcode byte was read; `rest` the remaining frames; the frames of
`st` are rebuilt by every branch from its final frame.  Each branch mirrors
its source block statement by statement, including the order of immediate
reads, pops and validity checks, and which error paths push a fallback value
(`break` paths that push nothing leave the stack as popped). -/
def execOp (op : Op) (f1 : Frame) (rest : List Frame) (st : VMState) : Outcome :=
  match op with
  | .pushConst =>
    let (idx, f2) := readU32F f1
    if st.constants.length ≤ idx then
      .next { st with stackI := pushB .nil st.stackI, frames := f2 :: rest }
    else
      .next { st with stackI := pushB (st.constants.getD idx .nil) st.stackI,
                      frames := f2 :: rest }
  | .pop =>
    .next { st with stackI := (popB st.stackI).2, frames := f1 :: rest }
  | .call =>
    let (fnIdx, f2) := readU32F f1
    let (argc, f3) := readU8F f2
    match st.functions.get? fnIdx with
    | none =>
      .next { st with stackI := pushB .nil (popN argc st.stackI).2, frames := f3 :: rest }
    | some callee =>
      .next (opCall { st with frames := f3 :: rest } callee argc)
  | .loadLocal =>
    let (slot, f2) := readU8F f1
    let abs := f2.localStartsAt + slot
    if abs < st.stackI.length then
      .next { st with stackI := pushB (st.stackI.getD abs .nil) st.stackI, frames := f2 :: rest }
    else
      .next { st with stackI := pushB .nil st.stackI, frames := f2 :: rest }
  | .storeLocal =>
    let (slot, f2) := readU8F f1
    let abs := f2.localStartsAt + slot
    let (val, s1) := popB st.stackI
    let s2 := s1 ++ List.replicate (abs + 1 - s1.length) Value.nil
    .next { st with stackI := s2.set abs val, frames := f2 :: rest }
  | .dup =>
    .next { st with stackI := dupStep st.stackI, frames := f1 :: rest }
  | .swap =>
    .next { st with stackI := swapStep st.stackI, frames := f1 :: rest }
  | .rot =>
    .next { st with stackI := rotStep st.stackI, frames := f1 :: rest }
  | .add => .next { st with stackI := arithStep .add st.stackI, frames := f1 :: rest }
  | .sub => .next { st with stackI := arithStep .sub st.stackI, frames := f1 :: rest }
  | .mul => .next { st with stackI := arithStep .mul st.stackI, frames := f1 :: rest }
  | .div => .next { st with stackI := arithStep .div st.stackI, frames := f1 :: rest }
  | .mod => .next { st with stackI := arithStep .mod st.stackI, frames := f1 :: rest }
  | .and =>
    let (vb, s1) := popB st.stackI
    let (va, s2) := popB s1
    .next { st with stackI := pushB (.bool (va.isTruthy && vb.isTruthy)) s2, frames := f1 :: rest }
  | .or =>
    let (vb, s1) := popB st.stackI
    let (va, s2) := popB s1
    .next { st with stackI := pushB (.bool (va.isTruthy || vb.isTruthy)) s2, frames := f1 :: rest }
  | .not =>
    let (a, s1) := popB st.stackI
    .next { st with stackI := pushB (.bool (!a.isTruthy)) s1, frames := f1 :: rest }
  | .eq => cmpExec .eq f1 rest st
  | .neq => cmpExec .neq f1 rest st
  | .lt => cmpExec .lt f1 rest st
  | .gt => cmpExec .gt f1 rest st
  | .lte => cmpExec .lte f1 rest st
  | .gte => cmpExec .gte f1 rest st
  | .jump =>
    let (target, f2) := readU32F f1
    .next { st with frames := { f2 with ip := target } :: rest }
  | .jumpIfFalse =>
    let (target, f2) := readU32F f1
    let (cond, s1) := popB st.stackI
    if cond.isTruthy then .next { st with stackI := s1, frames := f2 :: rest }
    else .next { st with stackI := s1, frames := { f2 with ip := target } :: rest }
  | .jumpIfTrue =>
    let (target, f2) := readU32F f1
    let (cond, s1) := popB st.stackI
    if cond.isTruthy then .next { st with stackI := s1, frames := { f2 with ip := target } :: rest }
    else .next { st with stackI := s1, frames := f2 :: rest }
  | .ret =>
    let (retCount, f2) := readU8F f1
    .next (doReturn retCount { st with frames := f2 :: rest })
  | .callNative =>
    let (nameIdx, f2) := readU32F f1
    let (argc, f3) := readU8F f2
    if st.constants.length ≤ nameIdx then
      .next { st with stackI := pushB .nil (popN argc st.stackI).2, frames := f3 :: rest }
    else
      match dynCastStr st.heap (st.constants.getD nameIdx .nil) with
      | none => .ub { st with frames := f3 :: rest }
      | some none =>
        .next { st with stackI := pushB .nil (popN argc st.stackI).2, frames := f3 :: rest }
      | some (some nm) =>
        if st.natives.contains nm then .nativeCall nm argc { st with frames := f3 :: rest }
        else .next { st with stackI := pushB .nil (popN argc st.stackI).2, frames := f3 :: rest }
  | .callFFI =>
    let (libIdx, f2) := readU32F f1
    let (symIdx, f3) := readU32F f2
    let (argc, f4) := readU8F f3
    let (sig, f5) := readU8F f4
    if st.constants.length ≤ libIdx ∨ st.constants.length ≤ symIdx then
      .next { st with stackI := pushB .nil (popN argc st.stackI).2, frames := f5 :: rest }
    else
      match dynCastStr st.heap (st.constants.getD libIdx .nil),
            dynCastStr st.heap (st.constants.getD symIdx .nil) with
      | some (some lib), some (some sym) =>
        .ffiCall lib sym argc sig { st with frames := f5 :: rest }
      | some _, some _ =>
        .next { st with stackI := pushB .nil (popN argc st.stackI).2, frames := f5 :: rest }
      | _, _ => .ub { st with frames := f5 :: rest }
  | .newObject =>
    let (nameIdx, f2) := readU32F f1
    if st.constants.length ≤ nameIdx then
      .next { st with stackI := pushB .nil st.stackI, frames := f2 :: rest }
    else
      match dynCastStr st.heap (st.constants.getD nameIdx .nil) with
      | none => .ub { st with frames := f2 :: rest }
      | some castRes =>
        let className := castRes.getD "Object"
        let (h2, id) := heapAlloc st.heap (.inst className [])
        .next { st with stackI := pushB (.object (some id)) st.stackI, heap := h2,
                        frames := f2 :: rest }
  | .isInstance =>
    let (typeIdx, f2) := readU32F f1
    let (objVal, s1) := popB st.stackI
    if st.constants.length ≤ typeIdx then
      .next { st with stackI := pushB (.bool false) s1, frames := f2 :: rest }
    else
      match dynCastStr st.heap (st.constants.getD typeIdx .nil) with
      | none => .ub { st with stackI := s1, frames := f2 :: rest }
      | some none => .next { st with stackI := pushB (.bool false) s1, frames := f2 :: rest }
      | some (some typeName) =>
        match objVal with
        | .object (some id) =>
          match heapGet st.heap id with
          | none => .ub { st with stackI := s1, frames := f2 :: rest }
          | some (.inst cn _) =>
            .next { st with stackI := pushB (.bool (cn == typeName)) s1, frames := f2 :: rest }
          | some _ => .next { st with stackI := pushB (.bool false) s1, frames := f2 :: rest }
        | _ => .next { st with stackI := pushB (.bool false) s1, frames := f2 :: rest }
  | .getField =>
    let (nameIdx, f2) := readU32F f1
    let (objv, s1) := popB st.stackI
    match objv with
    | .object (some id) =>
      if st.constants.length ≤ nameIdx then
        .next { st with stackI := pushB .nil s1, frames := f2 :: rest }
      else
        match dynCastStr st.heap (st.constants.getD nameIdx .nil) with
        | none => .ub { st with stackI := s1, frames := f2 :: rest }
        | some none => .next { st with stackI := pushB .nil s1, frames := f2 :: rest }
        | some (some fieldName) =>
          match heapGet st.heap id with
          | none => .ub { st with stackI := s1, frames := f2 :: rest }
          | some (.inst _ fields) =>
            .next { st with stackI := pushB ((assocGet fields fieldName).getD .nil) s1,
                            frames := f2 :: rest }
          | some _ => .next { st with stackI := pushB .nil s1, frames := f2 :: rest }
    | _ => .next { st with stackI := pushB .nil s1, frames := f2 :: rest }
  | .setField =>
    let (nameIdx, f2) := readU32F f1
    let (val, s1) := popB st.stackI
    let (objv, s2) := popB s1
    match objv with
    | .object (some id) =>
      if st.constants.length ≤ nameIdx then
        .ub { st with stackI := s2, frames := f2 :: rest }
      else
        match dynCastStr st.heap (st.constants.getD nameIdx .nil) with
        | none => .ub { st with stackI := s2, frames := f2 :: rest }
        | some none => .next { st with stackI := s2, frames := f2 :: rest }
        | some (some fieldName) =>
          match heapGet st.heap id with
          | none => .ub { st with stackI := s2, frames := f2 :: rest }
          | some (.inst cn fields) =>
            .next { st with stackI := s2,
                            heap := heapSet st.heap id (.inst cn (assocSet fields fieldName val)),
                            frames := f2 :: rest }
          | some _ => .next { st with stackI := s2, frames := f2 :: rest }
    | _ => .next { st with stackI := s2, frames := f2 :: rest }
  | .arrayGet =>
    let (idxv, s1) := popB st.stackI
    let (arrv, s2) := popB s1
    match arrv with
    | .object (some id) =>
      match heapGet st.heap id with
      | none => .ub { st with stackI := s2, frames := f1 :: rest }
      | some (.arr elems) =>
        let idx := toCIntIndex idxv
        if idx < 0 ∨ (elems.length : Int) ≤ idx then
          .next { st with stackI := pushB .nil s2, frames := f1 :: rest }
        else
          .next { st with stackI := pushB (elems.getD idx.toNat .nil) s2, frames := f1 :: rest }
      | some _ => .next { st with stackI := pushB .nil s2, frames := f1 :: rest }
    | _ => .next { st with stackI := pushB .nil s2, frames := f1 :: rest }
  | .arraySet =>
    let (val, s1) := popB st.stackI
    let (idxv, s2) := popB s1
    let (arrv, s3) := popB s2
    match arrv with
    | .object (some id) =>
      match heapGet st.heap id with
      | none => .ub { st with stackI := s3, frames := f1 :: rest }
      | some (.arr elems) =>
        let idx := toCIntIndex idxv
        if idx < 0 then .next { st with stackI := s3, frames := f1 :: rest }
        else
          let elems2 :=
            if (elems.length : Int) ≤ idx then
              elems ++ List.replicate (idx.toNat + 1 - elems.length) Value.nil
            else elems
          .next { st with stackI := s3, heap := heapSet st.heap id (.arr (elems2.set idx.toNat val)),
                          frames := f1 :: rest }
      | some _ => .next { st with stackI := s3, frames := f1 :: rest }
    | _ => .next { st with stackI := s3, frames := f1 :: rest }
  | .mapSet =>
    let (val, s1) := popB st.stackI
    let (keyv, s2) := popB s1
    let (mapv, s3) := popB s2
    match mapv with
    | .object (some id) =>
      match heapGet st.heap id with
      | none => .ub { st with stackI := s3, frames := f1 :: rest }
      | some (.map entries) =>
        match toStringH st.heap keyv with
        | none => .ub { st with stackI := s3, frames := f1 :: rest }
        | some key =>
          .next { st with stackI := s3, heap := heapSet st.heap id (.map (assocSet entries key val)),
                          frames := f1 :: rest }
      | some _ => .next { st with stackI := s3, frames := f1 :: rest }
    | _ => .next { st with stackI := s3, frames := f1 :: rest }
  | .mapGet =>
    let (keyv, s1) := popB st.stackI
    let (mapv, s2) := popB s1
    match mapv with
    | .object (some id) =>
      match heapGet st.heap id with
      | none => .ub { st with stackI := s2, frames := f1 :: rest }
      | some (.map entries) =>
        match toStringH st.heap keyv with
        | none => .ub { st with stackI := s2, frames := f1 :: rest }
        | some key =>
          .next { st with stackI := pushB ((assocGet entries key).getD .nil) s2,
                          frames := f1 :: rest }
      | some _ => .next { st with stackI := pushB .nil s2, frames := f1 :: rest }
    | _ => .next { st with stackI := pushB .nil s2, frames := f1 :: rest }
  | .stringConcat =>
    let (vb, s1) := popB st.stackI
    let (va, s2) := popB s1
    match strOperand st.heap va, strOperand st.heap vb with
    | some sa, some sb =>
      let (h2, id) := heapAlloc st.heap (.str (sa ++ sb))
      .next { st with stackI := pushB (.object (some id)) s2, heap := h2, frames := f1 :: rest }
    | _, _ => .ub { st with stackI := s2, frames := f1 :: rest }
  | .stringLength =>
    let (s0, s1) := popB st.stackI
    match s0 with
    | .object (some id) =>
      match heapGet st.heap id with
      | none => .ub { st with stackI := s1, frames := f1 :: rest }
      | some (.str sv) =>
        .next { st with stackI := pushB (Value.createINT sv.length) s1, frames := f1 :: rest }
      | some _ =>
        .next { st with stackI := pushB (Value.createINT 0) s1, frames := f1 :: rest }
    | _ => .next { st with stackI := pushB (Value.createINT 0) s1, frames := f1 :: rest }
  | .stringSubstr =>
    let (start, f2) := readU32F f1
    let (len, f3) := readU32F f2
    let (s0, s1) := popB st.stackI
    match s0 with
    | .object (some id) =>
      match heapGet st.heap id with
      | none => .ub { st with stackI := s1, frames := f3 :: rest }
      | some (.str sv) =>
        let st0 := min start sv.length
        let l := min len (sv.length - st0)
        let (h2, nid) := heapAlloc st.heap (.str (String.mk ((sv.toList.drop st0).take l)))
        .next { st with stackI := pushB (.object (some nid)) s1, heap := h2, frames := f3 :: rest }
      | some _ =>
        let (h2, nid) := heapAlloc st.heap (.str "")
        .next { st with stackI := pushB (.object (some nid)) s1, heap := h2, frames := f3 :: rest }
    | _ =>
      let (h2, nid) := heapAlloc st.heap (.str "")
      .next { st with stackI := pushB (.object (some nid)) s1, heap := h2, frames := f3 :: rest }
  | .stringEq =>
    let (b0, s1) := popB st.stackI
    let (a0, s2) := popB s1
    match strOperand st.heap a0, strOperand st.heap b0 with
    | some sa, some sb =>
      .next { st with stackI := pushB (.bool (sa == sb)) s2, frames := f1 :: rest }
    | _, _ => .ub { st with stackI := s2, frames := f1 :: rest }
  | .stringGetChar =>
    let (idxv, s1) := popB st.stackI
    let (s0, s2) := popB s1
    let idx : Int := match idxv with | .int i => wrap32 i | _ => 0
    match s0 with
    | .object (some id) =>
      match heapGet st.heap id with
      | none => .ub { st with stackI := s2, frames := f1 :: rest }
      | some (.str sv) =>
        if 0 ≤ idx ∧ idx < (sv.length : Int) then
          let (h2, nid) := heapAlloc st.heap (.str (String.mk [sv.toList.getD idx.toNat ' ']))
          .next { st with stackI := pushB (.object (some nid)) s2, heap := h2, frames := f1 :: rest }
        else
          let (h2, nid) := heapAlloc st.heap (.str "")
          .next { st with stackI := pushB (.object (some nid)) s2, heap := h2, frames := f1 :: rest }
      | some _ =>
        let (h2, nid) := heapAlloc st.heap (.str "")
        .next { st with stackI := pushB (.object (some nid)) s2, heap := h2, frames := f1 :: rest }
    | _ =>
      let (h2, nid) := heapAlloc st.heap (.str "")
      .next { st with stackI := pushB (.object (some nid)) s2, heap := h2, frames := f1 :: rest }
  | .loadGlobal =>
    let (nameIdx, f2) := readU32F f1
    if st.constants.length ≤ nameIdx then
      .next { st with stackI := pushB .nil st.stackI, frames := f2 :: rest }
    else
      match dynCastStr st.heap (st.constants.getD nameIdx .nil) with
      | none => .ub { st with frames := f2 :: rest }
      | some none => .next { st with stackI := pushB .nil st.stackI, frames := f2 :: rest }
      | some (some nm) =>
        .next { st with stackI := pushB ((assocGet st.globals nm).getD .nil) st.stackI,
                        frames := f2 :: rest }
  | .storeGlobal =>
    let (nameIdx, f2) := readU32F f1
    let (val, s1) := popB st.stackI
    if st.constants.length ≤ nameIdx then
      .next { st with stackI := s1, frames := f2 :: rest }
    else
      match dynCastStr st.heap (st.constants.getD nameIdx .nil) with
      | none => .ub { st with stackI := s1, frames := f2 :: rest }
      | some none => .next { st with stackI := s1, frames := f2 :: rest }
      | some (some nm) =>
        .next { st with stackI := s1, globals := assocSet st.globals nm val, frames := f2 :: rest }
  | .newArray =>
    let (h2, id) := heapAlloc st.heap (.arr [])
    .next { st with stackI := pushB (.object (some id)) st.stackI, heap := h2, frames := f1 :: rest }
  | .newMap =>
    let (h2, id) := heapAlloc st.heap (.map [])
    .next { st with stackI := pushB (.object (some id)) st.stackI, heap := h2, frames := f1 :: rest }

/-- One iteration of the `while (!call_frames.empty())` loop, from the
instruction fetch on (the garbage-collection check that precedes the fetch is
`collectGarbageIfNeeded`): running off the end of the code is an implicit
`RETURN 0`; otherwise read the opcode byte (advancing `ip`) and dispatch; a
byte that is no implemented opcode hits the `default` case, which reports it
and returns from `run()`. -/
def step (st : VMState) : Outcome :=
  match st.frames with
  | [] => .halt st
  | f0 :: rest =>
    if f0.function.code.length ≤ f0.ip then .next (doReturn 0 st)
    else
      let (b, f1) := readU8F f0
      match decodeOp b with
      | none => .halt { st with frames := f1 :: rest }
      | some op => execOp op f1 rest st

/-! ## The `.dbc` loader (`VM::load_dbc_file`)

The model starts from the byte buffer (the `ifstream` read is host I/O).
Reads past the end of the buffer are unchecked out-of-bounds vector accesses
in the source; the model's default 0 stands in for them and no theorem
evaluates such an input. -/

/-- One entry of the local `FnHeader` vector of `VM::load_dbc_file`. -/
structure FnHeader where
  nameIndex : Nat
  start : Nat
  size : Nat
  argCount : Nat
  localCount : Nat
deriving DecidableEq, Repr

/-- Bytes `buf[off, off+len)` read into a `std::string` (byte strings are
modelled as Lean strings; every claim input is ASCII). -/
def bytesToStr (buf : List Nat) (off len : Nat) : String :=
  String.mk (((buf.drop off).take len).map Char.ofNat)

/-- The constant-parsing loop: `count` constants from offset `off`, threading
the heap (a String constant is allocated on the heap as it is parsed — also
when a later constant fails).  `none` is the `Unknown const type` early
return. -/
def parseConsts (buf : List Nat) : Nat → Nat → Heap → Heap × Option (List Value × Nat)
  | off, 0, h => (h, some ([], off))
  | off, n + 1, h =>
    let (t, off1) := readU8L buf off
    if t = 1 then
      let (vi, off2) := readI32L buf off1
      let (h2, res) := parseConsts buf off2 n h
      (h2, res.map (fun p => (Value.createINT vi :: p.1, p.2)))
    else if t = 2 then
      let (dv, off2) := readF64L buf off1
      let (h2, res) := parseConsts buf off2 n h
      (h2, res.map (fun p => (Value.createDOUBLE dv :: p.1, p.2)))
    else if t = 3 then
      let (len, off2) := readU32L buf off1
      let s := bytesToStr buf off2 len
      let (h1, id) := heapAlloc h (.str s)
      let (h2, res) := parseConsts buf (off2 + len) n h1
      (h2, res.map (fun p => (Value.createOBJECT (some id) :: p.1, p.2)))
    else if t = 4 then
      let (h2, res) := parseConsts buf off1 n h
      (h2, res.map (fun p => (Value.createNIL :: p.1, p.2)))
    else if t = 5 then
      let (b, off2) := readU8L buf off1
      let (h2, res) := parseConsts buf off2 n h
      (h2, res.map (fun p => (Value.createBOOL (b != 0) :: p.1, p.2)))
    else (h, none)

/-- The function-header parsing loop (it cannot fail). -/
def parseHeaders (buf : List Nat) : Nat → Nat → List FnHeader × Nat
  | off, 0 => ([], off)
  | off, n + 1 =>
    let (ni, o1) := readU32L buf off
    let (cs, o2) := readU32L buf o1
    let (sz, o3) := readU32L buf o2
    let (ac, o4) := readU8L buf o3
    let (lc, o5) := readU8L buf o4
    let (hs, oEnd) := parseHeaders buf o5 n
    (⟨ni, cs, sz, ac, lc⟩ :: hs, oEnd)

/-- Model of `dynamic_cast<ObjString *>(constPool[h.nameIndex].current_value.object)`
in the install loop, after the caller checked the index and the OBJECT tag:
`some` the string contents, `none` a null cast result (a dangling id cannot
occur here — every pool object was just allocated). -/
def fnameOf (constPool : List Value) (h : Heap) (hd : FnHeader) : Option String :=
  match constPool.getD hd.nameIndex .nil with
  | .object (some id) =>
    match heapGet h id with
    | some (.str s) => some s
    | _ => none
  | _ => none

/-- The function-install loop of `VM::load_dbc_file`: validate each header
(name index in range and an Object constant; the cast yields a string; the
body inside the code section) and append the `Function` and its name-index
entry.  A failing header returns immediately — the functions installed for
the headers before it stay installed. -/
def installFns (constPool : List Value) (h : Heap) (code : List Nat) :
    List FnHeader → List Function → List (String × Nat) →
    Bool × List Function × List (String × Nat)
  | [], fns, idxm => (true, fns, idxm)
  | hd :: rest, fns, idxm =>
    if constPool.length ≤ hd.nameIndex ∨ (constPool.getD hd.nameIndex .nil).type ≠ .OBJECT then
      (false, fns, idxm)
    else
      match fnameOf constPool h hd with
      | none => (false, fns, idxm)
      | some fname =>
        if code.length < hd.start + hd.size then (false, fns, idxm)
        else
          installFns constPool h code rest
            (fns ++ [⟨fname, (code.drop hd.start).take hd.size, hd.argCount, hd.localCount⟩])
            (assocSet idxm fname fns.length)

/-- Model of `VM::load_dbc_file`, from the buffer on: magic and version checks, the
constant pool (with its heap allocations), the function headers, the code-size
bound, the install loop, and — only when everything succeeded — the append of
the parsed pool to `global_constants`. -/
def loadDbc (buf : List Nat) (st : VMState) : Bool × VMState :=
  if buf.length < 5 then (false, st)
  else if buf.take 4 ≠ [68, 76, 66, 67] then (false, st)
  else
    let (version, off1) := readU8L buf 4
    if version ≠ 1 then (false, st)
    else
      let (constCount, off2) := readU32L buf off1
      match parseConsts buf off2 constCount st.heap with
      | (h1, none) => (false, { st with heap := h1 })
      | (h1, some (constPool, off3)) =>
        let (fnCount, off4) := readU32L buf off3
        let (headers, off5) := parseHeaders buf off4 fnCount
        let (codeSize, off6) := readU32L buf off5
        if buf.length < off6 + codeSize then (false, { st with heap := h1 })
        else
          let code := (buf.drop off6).take codeSize
          match installFns constPool h1 code headers st.functions st.fnIndexByName with
          | (false, fns, idxm) =>
            (false, { st with heap := h1, functions := fns, fnIndexByName := idxm })
          | (true, fns, idxm) =>
            (true, { st with heap := h1, functions := fns, fnIndexByName := idxm,
                             constants := st.constants ++ constPool })

/-- The empty VM (`VM()` before any load or registration). -/
def vm0 : VMState :=
  ⟨[], ⟨[], 0⟩, [], [], [], [], [], [], ⟨[], 0⟩⟩

/-! ## Stack lemmas -/

theorem popB_concat (l : IStack) (v : Value) : popB (l ++ [v]) = (v, l) := by
  simp [popB]

theorem popB_concat2 (l : IStack) (u v : Value) : popB (l ++ [u, v]) = (v, l ++ [u]) := by
  have h : l ++ [u, v] = (l ++ [u]) ++ [v] := by simp
  rw [h, popB_concat]

theorem popB_concat3 (l : IStack) (u v w : Value) :
    popB (l ++ [u, v, w]) = (w, l ++ [u, v]) := by
  have h : l ++ [u, v, w] = (l ++ [u, v]) ++ [w] := by simp
  rw [h, popB_concat]

theorem swapStep_concat (s : IStack) (a b : Value) :
    swapStep (s ++ [b, a]) = s ++ [a, b] := by
  simp [swapStep, popB_concat2, popB_concat, pushB]

theorem rotStep_concat (s : IStack) (a b c : Value) :
    rotStep (s ++ [c, b, a]) = s ++ [b, a, c] := by
  simp [rotStep, popB_concat3, popB_concat2, popB_concat, pushB]

theorem popN_concat : ∀ (w u : IStack), popN w.length (u ++ w) = (w.reverse, u) := by
  intro w
  induction w using List.reverseRecOn with
  | nil => intro u; simp [popN]
  | append_singleton l a ih =>
    intro u
    have h1 : u ++ (l ++ [a]) = (u ++ l) ++ [a] := by simp
    have h2 : (l ++ [a]).length = l.length + 1 := by simp
    rw [h1, h2]
    show popN (l.length + 1) ((u ++ l) ++ [a]) = _
    simp only [popN, popB_concat, ih u]
    simp

/-! ## C2 — immediate decoding width (`VM::read_u32` / `read_u16` on a frame)

The frame readers compute the full little-endian value and advance `ip` by
the immediate's width, but both are declared to return `uint8_t`, so the
value handed back is the little-endian value reduced mod 256.  The concrete
frame below holds the four code bytes `00 01 00 00`, which encode 256; the
read yields 0. -/

/-- The failing frame for C2: four code bytes encoding the u32 value 256. -/
def frC2 : Frame := ⟨⟨"m", [0, 1, 0, 0], 0, 0⟩, 0, 0⟩

/-- C2: reading a u32 immediate advances `ip` by 4 (and a u16 by 2), but the
value returned is the encoded little-endian value reduced mod 256 — for every
frame the result is below 256, and on the bytes `00 01 00 00` (encoding 256)
it is 0, not 256. -/
theorem read_u32_truncates :
    (∀ f : Frame, (readU32F f).1 < 256 ∧ (readU32F f).2.ip = f.ip + 4) ∧
    (∀ f : Frame, (readU16F f).1 < 256 ∧ (readU16F f).2.ip = f.ip + 2) ∧
    (readU32F frC2).1 = 0 ∧ (readU32F frC2).2.ip = 4 ∧ (0 : Nat) ≠ 256 := by
  refine ⟨fun f => ⟨?_, rfl⟩, fun f => ⟨?_, rfl⟩, by decide, by decide, by decide⟩
  · exact Nat.mod_lt _ (by norm_num)
  · exact Nat.mod_lt _ (by norm_num)

/-! ## C9 — the public push/pop round trip (`VM::push` / `VM::pop`)

`VM::push` appends to the vector when `sp` is at its end but increments `sp`
only in the other branch, so on a fresh VM (`sp = 0`, empty vector) a push
leaves `sp` at 0 and the following pop returns Nil instead of the pushed
value. -/

/-- C9: on the empty public stack, `push(Int 42)` stores the value but leaves
`sp` at 0, and the following `pop()` therefore returns Nil with `sp` still 0 —
the round trip loses the value. -/
theorem push_pop_roundtrip_broken :
    pushPub (.int 42) ⟨[], 0⟩ = ⟨[.int 42], 0⟩ ∧
    popPub (pushPub (.int 42) ⟨[], 0⟩) = (.nil, ⟨[.int 42], 0⟩) ∧
    Value.nil ≠ Value.int 42 := by
  decide

/-! ## C10 — pop/peek totality at both stack interfaces -/

/-- C10: popping an empty stack returns Nil and leaves the stack pointer at 0
(both for `VM::pop` on the public stack, whatever the vector holds, and for
`VM::pop_back` on the internal stack), and peeking any position at or beyond
the current depth returns Nil — the peeks are const and never modify the
stack. -/
theorem pop_peek_total :
    (∀ vec : List Value, popPub ⟨vec, 0⟩ = (.nil, ⟨vec, 0⟩)) ∧
    popB [] = (.nil, []) ∧
    (∀ (vec : List Value) (sp : Nat) (position : Int), (sp : Int) ≤ position →
      peekPub ⟨vec, sp⟩ position = .nil) ∧
    (∀ (s : IStack) (position : Int), (s.length : Int) ≤ position →
      peekB s position = .nil) := by
  refine ⟨fun vec => by simp [popPub], rfl, fun vec sp position h => ?_, fun s position h => ?_⟩
  · simp only [peekPub]
    rw [if_pos (by omega)]
  · simp only [peekB]
    rw [if_pos (by omega)]

/-- Witness for C10 at concrete inputs. -/
theorem pop_peek_total_witness :
    popPub ⟨[Value.int 5], 0⟩ = (.nil, ⟨[Value.int 5], 0⟩) ∧
    peekPub ⟨[Value.int 5], 1⟩ 1 = .nil ∧
    peekB [Value.int 5] 3 = .nil :=
  ⟨pop_peek_total.1 [Value.int 5],
   pop_peek_total.2.2.1 [Value.int 5] 1 1 (by decide),
   pop_peek_total.2.2.2 [Value.int 5] 3 (by decide)⟩

/-! ## C8 — SWAP/ROT shuffle laws

On a stack of depth at least 2 (resp. 3) the laws hold.  On a shallower stack
they fail: an underflowing `pop_back` returns Nil without moving the stack
pointer, and the following pushes append, so `SWAP SWAP` on an empty operand
stack leaves two Nils behind (`ROT ROT ROT` three). -/

/-- C8 counterexample: on the empty operand stack, `SWAP SWAP` ends with two
Nil slots and `ROT ROT ROT` with three — neither is the identity there. -/
theorem swap_rot_identity_fails_when_shallow :
    swapStep (swapStep ([] : IStack)) = [.nil, .nil] ∧
    rotStep (rotStep (rotStep ([] : IStack))) = [.nil, .nil, .nil] ∧
    ([.nil, .nil] : IStack) ≠ [] ∧ ([.nil, .nil, .nil] : IStack) ≠ [] := by
  decide

/-- C8 (amended): on an operand stack holding at least two values, `SWAP SWAP`
is the identity, and on one holding at least three, `ROT ROT ROT` is the
identity (one `ROT` rotating bottom-first `a b c` into `b c a`). -/
theorem swap_rot_identity (s : IStack) (a b c : Value) :
    swapStep (swapStep (s ++ [b, a])) = s ++ [b, a] ∧
    rotStep (rotStep (rotStep (s ++ [c, b, a]))) = s ++ [c, b, a] := by
  constructor
  · rw [swapStep_concat, swapStep_concat]
  · rw [rotStep_concat, rotStep_concat, rotStep_concat]

/-! ## Rounding lemmas for C4 -/

theorem rnd53Nat_small (m : Nat) (h : m ≤ 2 ^ 53) : rnd53Nat m = m := by
  unfold rnd53Nat
  rw [if_pos h]

theorem rnd53_small (n : Int) (h : n.natAbs ≤ 2 ^ 53) : rnd53 n = n := by
  unfold rnd53
  rw [rnd53Nat_small n.natAbs h]
  split <;> omega

theorem f64round_int (n : Int) : f64round (n : ℚ) = ((rnd53 n : Int) : ℚ) := by
  unfold f64round
  simp [Rat.den_intCast, Rat.num_intCast]

theorem castF64toI64_int (n : Int) : castF64toI64 (n : ℚ) = n := by
  unfold castF64toI64
  simp [Rat.num_intCast, Rat.den_intCast, Int.tdiv_one]

theorem qfmod_int (a b : Int) (hb : b ≠ 0) :
    qfmod (a : ℚ) (b : ℚ) = ((a - b * a.tdiv b : Int) : ℚ) := by
  unfold qfmod
  rw [if_neg (Int.cast_ne_zero.mpr hb)]
  simp only [Rat.num_intCast, Rat.den_intCast, mul_one, one_mul]
  push_cast
  ring_nf

theorem arithStep_concat (op : ArithOp) (s : IStack) (va vb : Value) :
    arithStep op (s ++ [va, vb]) = s ++ [arithResult op va vb] := by
  simp [arithStep, popB_concat2, popB_concat, pushB]

theorem arithResult_int_int (op : ArithOp) (a b : Int) (hop : op ≠ .div) :
    arithResult op (.int a) (.int b) =
      Value.createINT (castF64toI64 (arithRaw op ((rnd53 a : Int) : ℚ) ((rnd53 b : Int) : ℚ))) := by
  unfold arithResult arithNum
  rw [if_pos]
  exact ⟨by simp [Value.type], by simp [Value.type], hop⟩

/-! ## C4 — integer arithmetic

Two operands of variant Int flow through `static_cast<double>` into a double
computation and back through `static_cast<int64_t>` into
`Value::createINT(const int)`, whose parameter narrows the result to 32 bits.
So the pushed Int is the exact integer result only while it fits in `int`;
at `2147483647 + 1` the opcode pushes `-2147483648`.  (Every Int value this
VM can construct is in `int` range for the same reason: `createINT` is the
only Int constructor.)  `DIV` always pushes a Double, and a Double operand
makes every arithmetic result a Double. -/

/-- C4 counterexample: `ADD` on Int operands `2147483647` and `1` pushes
`Int (-2147483648)`, not the exact sum `2147483648`. -/
theorem int_add_wraps :
    arithStep .add [Value.int 2147483647, Value.int 1] = [Value.int (-2147483648)] ∧
    (2147483647 + 1 : Int) ≠ -2147483648 := by
  constructor
  · have h0 : ([Value.int 2147483647, Value.int 1] : IStack) =
        [] ++ [Value.int 2147483647, Value.int 1] := by simp
    rw [h0, arithStep_concat, arithResult_int_int .add 2147483647 1 (by decide)]
    rw [rnd53_small 2147483647 (by decide), rnd53_small 1 (by decide)]
    simp only [arithRaw]
    have h1 : ((2147483647 : Int) : ℚ) + ((1 : Int) : ℚ) = ((2147483648 : Int) : ℚ) := by
      norm_cast
    rw [h1, f64round_int, rnd53_small 2147483648 (by decide), castF64toI64_int]
    decide
  · decide

/-- C4 (amended): for operands of variant Int in `int` range (all Ints this
VM constructs), `ADD`/`SUB`/`MUL`/`MOD` pop both and push an Int holding the
exact integer result reduced into 32-bit two's complement — hence the exact
result whenever it fits in `int` — provided the exact result stays within the
`2^53` double significand (automatic except for `MUL`) and the `MOD` divisor
is nonzero (`fmod` by zero is NaN); `MOD` follows C `fmod`, truncating toward
zero.  `DIV` always pushes a Double, and if either operand is a Double the
result is a Double. -/
theorem int_arith_amended :
    (∀ (op : ArithOp) (s : IStack) (a b : Int), op ≠ .div →
      a.natAbs < 2 ^ 31 → b.natAbs < 2 ^ 31 → (exactArith op a b).natAbs ≤ 2 ^ 53 →
      (op = .mod → b ≠ 0) →
      arithStep op (s ++ [.int a, .int b]) = s ++ [.int (wrap32 (exactArith op a b))]) ∧
    (∀ va vb : Value, (arithResult .div va vb).type = .DOUBLE) ∧
    (∀ (op : ArithOp) (va vb : Value), va.type = .DOUBLE ∨ vb.type = .DOUBLE →
      (arithResult op va vb).type = .DOUBLE) := by
  refine ⟨?_, ?_, ?_⟩
  · intro op s a b hop ha hb hres hmod
    rw [arithStep_concat, arithResult_int_int op a b hop]
    rw [rnd53_small a (by omega), rnd53_small b (by omega)]
    have push_res : ∀ n : Int, n = exactArith op a b →
        Value.createINT (castF64toI64 ((n : Int) : ℚ)) = Value.int (wrap32 (exactArith op a b)) := by
      intro n hn
      rw [castF64toI64_int, hn]
      rfl
    cases op with
    | add =>
      have h1 : ((a : ℚ) + b) = ((a + b : Int) : ℚ) := by push_cast; ring
      show s ++ [Value.createINT (castF64toI64 (f64round ((a : ℚ) + b)))] = _
      rw [h1, f64round_int, rnd53_small (a + b) hres, push_res (a + b) rfl]
    | sub =>
      have h1 : ((a : ℚ) - b) = ((a - b : Int) : ℚ) := by push_cast; ring
      show s ++ [Value.createINT (castF64toI64 (f64round ((a : ℚ) - b)))] = _
      rw [h1, f64round_int, rnd53_small (a - b) hres, push_res (a - b) rfl]
    | mul =>
      have h1 : ((a : ℚ) * b) = ((a * b : Int) : ℚ) := by push_cast; ring
      show s ++ [Value.createINT (castF64toI64 (f64round ((a : ℚ) * b)))] = _
      rw [h1, f64round_int, rnd53_small (a * b) hres, push_res (a * b) rfl]
    | div => exact absurd rfl hop
    | mod =>
      show s ++ [Value.createINT (castF64toI64 (qfmod (a : ℚ) (b : ℚ)))] = _
      rw [qfmod_int a b (hmod rfl), push_res (a - b * a.tdiv b) rfl]
  · intro va vb
    unfold arithResult
    rw [if_neg (by simp)]
    rfl
  · intro op va vb hd
    unfold arithResult
    rw [if_neg (by rcases hd with h | h <;> simp [h])]
    rfl

/-- Witness for C4 (amended) at `2 + 3`. -/
theorem int_arith_amended_witness :
    arithStep .add ([] ++ [Value.int 2, Value.int 3]) =
      [] ++ [Value.int (wrap32 (exactArith .add 2 3))] ∧
    wrap32 (exactArith .add 2 3) = 5 :=
  ⟨int_arith_amended.1 .add [] 2 3 (by decide) (by decide) (by decide) (by decide) (by decide),
   by decide⟩

/-! ## C1 — garbage-collector root coverage

The root walker of `VM::perform_gc` enumerates `stack[0..sp)` — the
external-API stack — and the values of `globals`, and nothing else: neither
the interpreter's operand stack (`stack_internal` below `sp_internal`) nor
the constant pool (`global_constants`).  A collection therefore sweeps a heap
object whose only reference sits in the constant pool or on the interpreter's
operand stack. -/

/-- C1: after `perform_gc`, a string object referenced only by the constant
pool is gone from the heap, and so is an array referenced only by the
interpreter's operand stack — while objects referenced from the external-API
stack below `sp` or from `globals` are retained. -/
theorem gc_sweeps_constant_pool_and_operand_stack :
    (performGC { vm0 with constants := [.object (some 0)],
                          heap := ⟨[(0, .str "k")], 1⟩ }).heap.objs = [] ∧
    (performGC { vm0 with stackI := [.object (some 1)],
                          heap := ⟨[(1, .arr [])], 2⟩ }).heap.objs = [] ∧
    (performGC { vm0 with pub := ⟨[.object (some 2)], 1⟩,
                          heap := ⟨[(2, .str "g")], 3⟩ }).heap.objs = [(2, .str "g")] ∧
    (performGC { vm0 with globals := [("g", .object (some 3))],
                          heap := ⟨[(3, .str "h")], 4⟩ }).heap.objs = [(3, .str "h")] := by
  decide

/-! ## C5 — STRING_CONCAT / STRING_EQ on a non-String heap object

Both opcodes read the operand string as
`dynamic_cast<ObjString *>(va.current_value.object)->value` whenever the
operand is a non-null Object — without checking the cast result.  For an
Array (or Map, or Instance) operand the cast yields a null pointer and the
`->value` dereference is undefined behaviour: the VM crashes instead of
pushing a fallback. -/

/-- The failing state for C5: the two operand-stack slots hold the same Array
object. -/
def vmC5 : VMState :=
  { vm0 with heap := ⟨[(0, HeapObj.arr [])], 1⟩,
             stackI := [.object (some 0), .object (some 0)] }

/-- The running frame for C5 (its code is irrelevant — the opcode byte was
already consumed). -/
def frC5 : Frame := ⟨⟨"m", [], 0, 0⟩, 0, 0⟩

/-- C5: executing `STRING_CONCAT` (and likewise `STRING_EQ`) with an Array
object as operand pops the two operands and then dereferences the null result
of the `ObjString` cast — undefined behaviour, not a pushed fallback value. -/
theorem string_concat_null_deref :
    execOp .stringConcat frC5 [] vmC5 = .ub { vmC5 with stackI := [], frames := [frC5] } ∧
    execOp .stringEq frC5 [] vmC5 = .ub { vmC5 with stackI := [], frames := [frC5] } := by
  decide

/-! ## C7 — an unknown opcode is fatal and preserves the stack -/

/-- C7: when the fetched opcode byte decodes to none of the implemented
opcodes, the iteration returns `halt` — stopping `run()` — and the only state
change is the `ip` advance of the fetch itself: the operand stack (its
pointer and every entry below it) is exactly as before the fetch. -/
theorem unknown_opcode_halts (st : VMState) (f0 : Frame) (rest : List Frame)
    (hframes : st.frames = f0 :: rest)
    (hip : f0.ip < f0.function.code.length)
    (hunknown : decodeOp (f0.function.code.getD f0.ip 0) = none) :
    step st = .halt { st with frames := { f0 with ip := f0.ip + 1 } :: rest } ∧
    ({ st with frames := { f0 with ip := f0.ip + 1 } :: rest }).stackI = st.stackI := by
  refine ⟨?_, rfl⟩
  simp only [step, hframes, readU8F]
  rw [if_neg (by omega), hunknown]

/-- The function and state of the C7 witness: one code byte, 255, which is no
opcode. -/
def fnC7 : Function := ⟨"m", [255], 0, 0⟩

/-- Witness state for C7. -/
def vmC7 : VMState := { vm0 with stackI := [Value.int 1], frames := [⟨fnC7, 0, 0⟩] }

/-- Witness for C7: on `vmC7` the step halts with only `ip` advanced. -/
theorem unknown_opcode_halts_witness :
    step vmC7 = .halt { vmC7 with frames := [⟨fnC7, 1, 0⟩] } ∧
    ({ vmC7 with frames := [⟨fnC7, 1, 0⟩] }).stackI = vmC7.stackI :=
  unknown_opcode_halts vmC7 ⟨fnC7, 0, 0⟩ [] rfl (by decide) (by decide)

/-! ## C3 — frame linearity of CALL / RETURN -/

theorem u32sub_small (a b : Nat) (hb : b ≤ a) (ha : a < 2 ^ 32) :
    u32sub a b = a - b := by
  unfold u32sub
  have h32 : (2 : Nat) ^ 32 = 4294967296 := by norm_num
  rw [h32] at ha ⊢
  omega

/-- C3: with `argc ≤ sp_before` and a valid callee index, `OP_CALL` pushes a
frame whose `local_base` is `sp_before - argc`, extends the stack by one Nil
per declared local beyond the arguments (the `argc` argument values staying
in place as locals `0..argc-1`), and a later matching `RETURN r` — from any
operand stack the callee leaves that still covers `local_base + r` slots —
pops the frame and leaves `sp_after = sp_before - argc + r` with the `r`
returned values on top in their original order. -/
theorem call_return_frame_linearity
    (st : VMState) (fnIdx argc : Nat) (callee : Function)
    (_hfn : st.functions.get? fnIdx = some callee)
    (hargc : argc ≤ st.stackI.length) (hsp : st.stackI.length < 2 ^ 32) :
    (opCall st callee argc).frames =
      ⟨callee, 0, st.stackI.length - argc⟩ :: st.frames ∧
    (opCall st callee argc).stackI =
      st.stackI ++ List.replicate (callee.localCount - argc) Value.nil ∧
    (∀ i, i < argc →
      (opCall st callee argc).stackI[st.stackI.length - argc + i]? =
        st.stackI[st.stackI.length - argc + i]?) ∧
    (∀ (r ip2 : Nat) (s2 : IStack),
      st.stackI.length - argc + r ≤ s2.length →
      doReturn r { st with stackI := s2,
                           frames := ⟨callee, ip2, st.stackI.length - argc⟩ :: st.frames } =
        { st with stackI := s2.take (st.stackI.length - argc) ++ s2.drop (s2.length - r),
                  frames := st.frames } ∧
      (s2.take (st.stackI.length - argc) ++ s2.drop (s2.length - r)).length =
        st.stackI.length - argc + r) := by
  have hL : u32sub st.stackI.length argc = st.stackI.length - argc :=
    u32sub_small _ _ hargc hsp
  refine ⟨?_, rfl, ?_, ?_⟩
  · simp only [opCall, hL]
  · intro i hi
    simp only [opCall]
    exact List.getElem?_append_left (by omega)
  · intro r ip2 s2 hlen
    have hr : r ≤ s2.length := by omega
    have hdlen : (s2.drop (s2.length - r)).length = r := by
      simp only [List.length_drop]
      omega
    have hsplit : s2 = s2.take (s2.length - r) ++ s2.drop (s2.length - r) :=
      (List.take_append_drop _ _).symm
    have hpop := popN_concat (s2.drop (s2.length - r)) (s2.take (s2.length - r))
    rw [hdlen, ← hsplit] at hpop
    have htake : (s2.take (s2.length - r)).take (st.stackI.length - argc) =
        s2.take (st.stackI.length - argc) := by
      rw [List.take_take]
      congr 1
      omega
    constructor
    · simp only [doReturn, hpop, htake, List.reverse_reverse]
    · simp only [List.length_append, List.length_take, List.length_drop]
      omega

/-- The callee of the C3 witness: two arguments, three declared locals. -/
def fC3 : Function := ⟨"g", [], 2, 3⟩

/-- The caller state of the C3 witness: two argument values on the operand
stack. -/
def vmC3 : VMState := { vm0 with stackI := [Value.int 7, Value.int 8], functions := [fC3] }

/-- Witness for C3: calling `fC3` with both stack values as arguments makes
`local_base` 0, extends the stack with one Nil, and a `RETURN 1` from a
one-value callee stack leaves exactly that value with `sp = 0 - 2 + ... = 1`. -/
theorem call_return_frame_linearity_witness :
    (opCall vmC3 fC3 2).frames = ⟨fC3, 0, vmC3.stackI.length - 2⟩ :: vmC3.frames ∧
    (opCall vmC3 fC3 2).stackI = vmC3.stackI ++ [Value.nil] ∧
    (doReturn 1 { vmC3 with stackI := [Value.int 9],
                            frames := ⟨fC3, 5, vmC3.stackI.length - 2⟩ :: vmC3.frames
                 }).stackI.length = vmC3.stackI.length - 2 + 1 := by
  have h := call_return_frame_linearity vmC3 0 2 fC3 rfl (by decide) (by decide)
  have h4 := h.2.2.2 1 5 [Value.int 9] (by decide)
  refine ⟨h.1, ?_, ?_⟩
  · rw [h.2.1]
    rfl
  · rw [h4.1]
    exact h4.2

/-! ## C6 — loader atomicity

Every validation failure makes `load_dbc_file` return an error before the
parsed pool is appended to `global_constants`, so the constant pool is left
untouched.  The function table is not: the install loop appends each function
as its header validates, and a later bad header returns with the earlier
functions (and their name-index entries) still installed.  String constants
allocated while parsing also stay on the heap. -/

theorem installFns_append (constPool : List Value) (h : Heap) (code : List Nat) :
    ∀ (hs : List FnHeader) (fns : List Function) (idxm : List (String × Nat)),
      ∃ extra, (installFns constPool h code hs fns idxm).2.1 = fns ++ extra := by
  intro hs
  induction hs with
  | nil => exact fun fns idxm => ⟨[], by simp [installFns]⟩
  | cons hd rest ih =>
    intro fns idxm
    unfold installFns
    split
    · exact ⟨[], by simp⟩
    · split
      · exact ⟨[], by simp⟩
      · split
        · exact ⟨[], by simp⟩
        · rename_i fname heq hb
          obtain ⟨extra, hex⟩ := ih (fns ++
            [⟨fname, (code.drop hd.start).take hd.size, hd.argCount, hd.localCount⟩])
            (assocSet idxm fname fns.length)
          refine ⟨⟨fname, (code.drop hd.start).take hd.size, hd.argCount, hd.localCount⟩ ::
            extra, ?_⟩
          rw [hex]
          simp

/-- Variant of `installFns_append` keyed on the result triple, so the loop
arguments are picked up from the equation. -/
theorem installFns_prefix {cp : List Value} {h : Heap} {code : List Nat}
    {hs : List FnHeader} {fns : List Function} {idxm : List (String × Nat)}
    {ok : Bool} {fns2 : List Function} {idxm2 : List (String × Nat)}
    (heq : installFns cp h code hs fns idxm = (ok, fns2, idxm2)) :
    ∃ extra, fns2 = fns ++ extra := by
  obtain ⟨extra, hex⟩ := installFns_append cp h code hs fns idxm
  rw [heq] at hex
  exact ⟨extra, hex⟩

/-- C6 (amended): whenever `load_dbc_file` returns an error, the VM's
constant pool (`global_constants`) is exactly as it was before the load; the
function table, however, may have gained the functions whose headers
validated before the failing one — it is exactly the old table with a
(possibly empty) block appended. -/
theorem loader_error_leaves_pool_untouched (buf : List Nat) (st : VMState)
    (ok : Bool) (st2 : VMState)
    (h : loadDbc buf st = (ok, st2)) (hfail : ok = false) :
    st2.constants = st.constants ∧ ∃ extra, st2.functions = st.functions ++ extra := by
  subst hfail
  simp only [loadDbc] at h
  split at h
  · injection h with hok hst
    subst hst
    exact ⟨rfl, [], by simp⟩
  · split at h
    · injection h with hok hst
      subst hst
      exact ⟨rfl, [], by simp⟩
    · split at h
      · injection h with hok hst
        subst hst
        exact ⟨rfl, [], by simp⟩
      · split at h
        · injection h with hok hst
          subst hst
          exact ⟨rfl, [], by simp⟩
        · split at h
          · injection h with hok hst
            subst hst
            exact ⟨rfl, [], by simp⟩
          · split at h
            · injection h with hok hst
              subst hst
              refine ⟨rfl, ?_⟩
              rename_i heqInstall
              simpa using installFns_prefix heqInstall
            · injection h with hok
              exact absurd hok (by decide)

/-- The C6 failing input: a well-formed header and one string constant `"f"`,
followed by two function headers — the first valid (name index 0), the second
with name index 9, which is out of range of the one-entry pool — and an empty
code section. -/
def dbcBad : List Nat :=
  [68, 76, 66, 67,
   1,
   1, 0, 0, 0,
   3, 1, 0, 0, 0, 102,
   2, 0, 0, 0,
   0, 0, 0, 0, 0, 0, 0, 0, 0, 0, 0, 0, 0, 0,
   9, 0, 0, 0, 0, 0, 0, 0, 0, 0, 0, 0, 0, 0,
   0, 0, 0, 0]

/-- C6 counterexample: loading `dbcBad` into a fresh VM returns an error, yet
the function table is no longer the (empty) table from before the load — the
first function `"f"` stays installed, with its name-index entry, and the
string constant allocated for the pool stays on the heap. -/
theorem loader_mutates_function_table :
    (loadDbc dbcBad vm0).1 = false ∧
    (loadDbc dbcBad vm0).2.functions = [⟨"f", [], 0, 0⟩] ∧
    (loadDbc dbcBad vm0).2.fnIndexByName = [("f", 0)] ∧
    (loadDbc dbcBad vm0).2.heap.objs = [(0, .str "f")] ∧
    vm0.functions = [] := by
  decide

/-- Witness for C6 (amended) at the concrete failing input. -/
theorem loader_error_leaves_pool_untouched_witness :
    (loadDbc dbcBad vm0).2.constants = vm0.constants ∧
    ∃ extra, (loadDbc dbcBad vm0).2.functions = vm0.functions ++ extra :=
  loader_error_leaves_pool_untouched dbcBad vm0
    (loadDbc dbcBad vm0).1 (loadDbc dbcBad vm0).2 rfl (by decide)

end Droplet
